import Mathlib

/-!
Verification of the reconciliation-and-reporting pipeline of
`src/plot/compare_benchmarks.py` (matmul-bench).

The script is shallowly embedded: pandas data frames become lists of
records, numeric CSV columns become exact rationals (`ℚ`), the pandas
inner merge becomes an order-preserving nested-loop join, and IEEE-754
division of finite values (which pandas performs columnwise, yielding
`inf`/`-inf`/`NaN` on a zero denominator instead of raising) becomes the
four-valued `FloatVal` type.  Artifact writes (`plt.savefig`) are
modelled as the ordered list of file names written.
-/

namespace MatmulBench

/-- One row of a benchmark CSV after loading: `algorithm`, `size`,
`time_ms`, `memory_mb` columns of the data frame.  `size` is an integer
column; the two measurement columns are floats, embedded as exact
rationals. -/
structure BenchRec where
  algorithm : String
  size : Nat
  time_ms : ℚ
  memory_mb : ℚ
  deriving DecidableEq, Repr

/-- Result of dividing two finite floats, as pandas/NumPy computes it:
a finite value, or one of the IEEE-754 sentinels produced when the
denominator is zero. -/
inductive FloatVal where
  | finite (q : ℚ)
  | posInf
  | negInf
  | nan
  deriving DecidableEq, Repr

/-- IEEE-754 division of two finite values `a / b` (the columnwise
division pandas performs for the derived speedup and memory-ratio
columns):
exact quotient when `b ≠ 0`, signed infinity for `a ≠ 0, b = 0`, and
NaN for `0 / 0`.  No exception is possible: the function is total. -/
def fdiv (a b : ℚ) : FloatVal :=
  if b ≠ 0 then .finite (a / b)
  else if 0 < a then .posInf
  else if a < 0 then .negInf
  else .nan

/-- One row of the merged comparison frame built in
`create_algorithm_comparison_table`: the shared `size`, both
measurements (`_julia` = side a, `_rust` = side b) and the derived
`speedup` and `memory_ratio` columns. -/
structure ComparisonRow where
  size : Nat
  time_a : ℚ
  time_b : ℚ
  speedup : FloatVal
  memory_a : ℚ
  memory_b : ℚ
  memory_ratio : FloatVal
  deriving DecidableEq, Repr

/-- The fixed ordered algorithm set of the script
(`algorithms = ["Iterative", "Divide-Conquer", "Strassen"]`). -/
def algorithms : List String := ["Iterative", "Divide-Conquer", "Strassen"]

/-- Filtering a frame to the rows of one algorithm, preserving row
order (the pandas boolean indexing on the algorithm column). -/
def filterAlg (df : List BenchRec) (alg : String) : List BenchRec :=
  df.filter (fun r => r.algorithm == alg)

/-- The pandas inner merge on the `size` column,
`pd.merge(julia_data, rust_data, on="size")`.  Row order follows the left frame's keys; each left row
is paired with every matching right row (so duplicate keys multiply). -/
def mergeOnSize (julia_data rust_data : List BenchRec) : List (BenchRec × BenchRec) :=
  julia_data.flatMap (fun l =>
    (rust_data.filter (fun r => r.size == l.size)).map (fun r => (l, r)))

/-- The data part of `create_algorithm_comparison_table` (lines
261-272): merge the two already-filtered frames on `size` and derive
`speedup = time_ms_julia / time_ms_rust` and
`memory_ratio = memory_mb_julia / memory_mb_rust`. -/
def comparisonRows (julia_data rust_data : List BenchRec) : List ComparisonRow :=
  (mergeOnSize julia_data rust_data).map (fun p =>
    { size := p.1.size
      time_a := p.1.time_ms
      time_b := p.2.time_ms
      speedup := fdiv p.1.time_ms p.2.time_ms
      memory_a := p.1.memory_mb
      memory_b := p.2.memory_mb
      memory_ratio := fdiv p.1.memory_mb p.2.memory_mb })

/-- The spec's `reconcile(algorithm, datasetA, datasetB)`: filter both
datasets to the algorithm (as `create_comparison_tables` does before
calling `create_algorithm_comparison_table`) and build the comparison
rows. -/
def reconcile (alg : String) (julia_df rust_df : List BenchRec) : List ComparisonRow :=
  comparisonRows (filterAlg julia_df alg) (filterAlg rust_df alg)

/-- Python `algorithm.lower()`, ASCII case folding as applied to the
algorithm names the script handles. -/
def pyLower (s : String) : String := ⟨s.data.map Char.toLower⟩

/-- Python `.replace("-", "_")`: every hyphen becomes an underscore
(the pattern is a single character, so this is a character map). -/
def pyReplaceDash (s : String) : String :=
  ⟨s.data.map (fun c => if c == '-' then '_' else c)⟩

/-- The artifact slug `algorithm.lower().replace("-", "_")` used in all
output file names (lines 83, 127, 318). -/
def algorithmSlug (alg : String) : String := pyReplaceDash (pyLower alg)

/-- Modelled from the spec: "`<algorithm_slug>` = algorithm name
lower-cased with internal spaces/hyphens replaced by underscores" —
the slug as the spec describes it, for comparison with `algorithmSlug`
above (the one the code computes). -/
def specSlug (alg : String) : String :=
  ⟨alg.data.map (fun c => if c == '-' || c == ' ' then '_' else Char.toLower c)⟩

/-! ### Dataset loading (`load_benchmark_data`) -/

/-- One cell of a CSV numeric column as `pd.read_csv` sees it: either a
numeric value or non-numeric text.  Modelled from the spec: the CSV
tokenisation and numeric parsing live inside the pandas library, not in
`src/`; per spec §4.1 "rows with non-numeric size/time/memory fields
constitute a MalformedRowError". -/
inductive CSVField where
  | num (q : ℚ)
  | text (s : String)
  deriving DecidableEq, Repr

/-- A raw CSV row before numeric validation. -/
structure RawRow where
  algorithm : String
  size : CSVField
  time_ms : CSVField
  memory_mb : CSVField
  deriving DecidableEq, Repr

/-- A discovered benchmark CSV file: its name (carrying the thread-count
metadata) and its parsed-but-unvalidated rows. -/
structure CSVFile where
  name : String
  rows : List RawRow
  deriving DecidableEq, Repr

/-- Numeric validation of one cell. -/
def parseField : CSVField → Option ℚ
  | .num q => some q
  | .text _ => none

/-- Modelled from the spec: one CSV row maps to one `BenchRec`; a row
whose `size`, `time_ms` or `memory_mb` field is non-numeric fails
(MalformedRowError).  `size` is truncated to its integer part as pandas
stores an integer column. -/
def parseRow (r : RawRow) : Option BenchRec := do
  let s ← parseField r.size
  let t ← parseField r.time_ms
  let m ← parseField r.memory_mb
  pure ⟨r.algorithm, s.floor.toNat, t, m⟩

/-- Row-by-row validation of a whole file: all rows, in order, or the
first failure. -/
def parseRows : List RawRow → Option (List BenchRec)
  | [] => some []
  | r :: rs => do
    let b ← parseRow r
    let bs ← parseRows rs
    pure (b :: bs)

/-- Reading one file with `pd.read_csv`: every row must validate, else
the load of that file fails (modelled from the spec, see `CSVField`). -/
def readCSV (f : CSVFile) : Option (List BenchRec) :=
  parseRows f.rows

/-- The two fatal ingestion failures of the pipeline. -/
inductive LoadErr where
  | missingInput
  | malformedRow
  deriving DecidableEq, Repr

/-- Function `load_benchmark_data` (lines 18-32): glob results are passed in as
the two candidate-file lists; if either list is empty the script prints
an error and exits with status 1 (`MissingInputError`); otherwise the
first file of each list is read.  Returns both frames and both selected
file names. -/
def load_benchmark_data (julia_files rust_files : List CSVFile) :
    Except LoadErr (List BenchRec × List BenchRec × String × String) :=
  match julia_files, rust_files with
  | [], _ => .error .missingInput
  | _ :: _, [] => .error .missingInput
  | jf :: _, rf :: _ =>
    match readCSV jf, readCSV rf with
    | some j, some r => .ok (j, r, jf.name, rf.name)
    | _, _ => .error .malformedRow

/-! ### Thread-count extraction (`extract_thread_count`)

`re.search` with the raw pattern `_(\d+)t_`.  At a given start position the
pattern can only match with the maximal digit run: if the greedy `\d+`
backtracked to a shorter run, the next character to match against `t`
would still be a digit.  So matching at one position reduces to
`takeWhile`/`dropWhile`, and `re.search`'s leftmost-match rule to a
left-to-right scan. -/

/-- Try to match `_(\d+)t_` anchored at the head of `s`; on success
return the digit group (the greedy maximal digit run). -/
def tcMatchAt (s : List Char) : Option (List Char) :=
  match s with
  | [] => none
  | c :: rest =>
    if c = '_' then
      if rest.takeWhile Char.isDigit = [] then none
      else
        match rest.dropWhile Char.isDigit with
        | c1 :: c2 :: _ =>
          if c1 = 't' ∧ c2 = '_' then some (rest.takeWhile Char.isDigit) else none
        | _ => none
    else none

/-- The `re.search` scan: try each start position from the left, return the
first match's digit group. -/
def reSearchTC : List Char → Option (List Char)
  | [] => none
  | c :: rest =>
    match tcMatchAt (c :: rest) with
    | some d => some d
    | none => reSearchTC rest

/-- Function `extract_thread_count` (lines 34-37): the digit group of the first
`_<digits>t_` occurrence, else the sentinel `"unknown"`. -/
def extract_thread_count (filename : String) : String :=
  match reSearchTC filename.data with
  | some d => ⟨d⟩
  | none => "unknown"

/-! ### Renderers and orchestration (artifact names, in write order) -/

/-- Function `create_individual_algorithm_plots` (lines 131-140): for each
algorithm of the fixed set, `create_algorithm_time_plot` saves
`<slug>_comparison.png`, then `create_algorithm_memory_plot` saves
`<slug>_memory.png`.  Both savefig calls happen regardless of the
filtered data's content. -/
def create_individual_algorithm_plots (julia_df rust_df : List BenchRec) : List String :=
  algorithms.flatMap (fun alg =>
    [algorithmSlug alg ++ "_comparison.png", algorithmSlug alg ++ "_memory.png"])

/-- Function `create_comparison_tables` (lines 327-332): for each algorithm of
the fixed set, render `<slug>_table.png` only when both filtered
frames are non-empty; otherwise the algorithm is skipped and the loop
continues. -/
def create_comparison_tables (julia_df rust_df : List BenchRec) : List String :=
  algorithms.filterMap (fun alg =>
    let julia_data := filterAlg julia_df alg
    let rust_data := filterAlg rust_df alg
    if 0 < julia_data.length ∧ 0 < rust_data.length then
      some (algorithmSlug alg ++ "_table.png")
    else none)

/-- Outcome of a run of the script: a normal exit with the list of
artifact files written, or a nonzero exit (explicit `exit(1)` or an
uncaught exception) with the artifacts written before the abort. -/
inductive RunResult where
  | ok (artifacts : List String)
  | fail (exitCode : Nat) (artifacts : List String)
  deriving DecidableEq, Repr

/-- Function `main` (lines 334-351): load both datasets (fatal abort on
failure, nothing written), then write the per-algorithm plots, the two
combined overlay plots, and finally the comparison tables.  Thread
counts only decorate plot titles, so they do not appear in the
artifact-name model. -/
def main (julia_files rust_files : List CSVFile) : RunResult :=
  match load_benchmark_data julia_files rust_files with
  | .error _ => .fail 1 []
  | .ok (julia_df, rust_df, _, _) =>
    .ok (create_individual_algorithm_plots julia_df rust_df
         ++ ["all_algorithms_comparison.png", "all_algorithms_memory.png"]
         ++ create_comparison_tables julia_df rust_df)

/-! ### Basic lemmas about the reconciliation -/

/-- The comparison row built from one matched pair. -/
def mkRow (l r : BenchRec) : ComparisonRow :=
  { size := l.size
    time_a := l.time_ms
    time_b := r.time_ms
    speedup := fdiv l.time_ms r.time_ms
    memory_a := l.memory_mb
    memory_b := r.memory_mb
    memory_ratio := fdiv l.memory_mb r.memory_mb }

lemma comparisonRows_eq_map (julia_data rust_data : List BenchRec) :
    comparisonRows julia_data rust_data =
      (mergeOnSize julia_data rust_data).map (fun p => mkRow p.1 p.2) := rfl

lemma mem_comparisonRows {julia_data rust_data : List BenchRec} {r : ComparisonRow} :
    r ∈ comparisonRows julia_data rust_data ↔
      ∃ l ∈ julia_data, ∃ x ∈ rust_data, x.size = l.size ∧ r = mkRow l x := by
  simp only [comparisonRows_eq_map, mergeOnSize, List.mem_map, List.mem_flatMap,
    List.mem_filter, beq_iff_eq]
  constructor
  · rintro ⟨p, ⟨l, hl, x, ⟨hxr, hxs⟩, rfl⟩, rfl⟩
    exact ⟨l, hl, x, hxr, hxs, rfl⟩
  · rintro ⟨l, hl, x, hx, hsz, rfl⟩
    exact ⟨(l, x), ⟨l, hl, x, ⟨hx, hsz⟩, rfl⟩, rfl⟩

lemma fdiv_of_ne_zero (a : ℚ) {b : ℚ} (hb : b ≠ 0) : fdiv a b = .finite (a / b) := by
  simp [fdiv, hb]

lemma fdiv_zero_sentinel (a : ℚ) :
    fdiv a 0 = .posInf ∨ fdiv a 0 = .negInf ∨ fdiv a 0 = .nan := by
  rcases lt_trichotomy a 0 with h | h | h
  · right; left; simp [fdiv, h, not_lt.mpr h.le]
  · right; right; simp [fdiv, h]
  · left; simp [fdiv, h]

lemma fdiv_self_of_pos {a : ℚ} (ha : 0 < a) : fdiv a a = .finite 1 := by
  simp [fdiv, ne_of_gt ha, div_self (ne_of_gt ha)]

/-! ### Claims about derived ratios -/

/-- C2: every row produced by the reconciliation with nonzero `time_b`
and `memory_b` carries `speedup = time_a / time_b` and
`memory_ratio = memory_a / memory_b`, side a being the Julia frame and
side b the Rust frame (exact equality in the rational model, hence
within any floating-point tolerance). -/
theorem C2_ratio_formulas (alg : String) (julia_df rust_df : List BenchRec)
    (r : ComparisonRow) (hr : r ∈ reconcile alg julia_df rust_df)
    (ht : r.time_b ≠ 0) (hm : r.memory_b ≠ 0) :
    r.speedup = .finite (r.time_a / r.time_b) ∧
      r.memory_ratio = .finite (r.memory_a / r.memory_b) := by
  obtain ⟨l, _, x, _, _, hrow⟩ := mem_comparisonRows.mp hr
  subst hrow
  exact ⟨fdiv_of_ne_zero _ ht, fdiv_of_ne_zero _ hm⟩

/-- Witness for C2 on the spec's end-to-end example. -/
theorem C2_ratio_formulas_witness :
    (⟨64, 10, 2, .finite 5, 5, 1, .finite 5⟩ : ComparisonRow).speedup
        = .finite ((⟨64, 10, 2, .finite 5, 5, 1, .finite 5⟩ : ComparisonRow).time_a
            / (⟨64, 10, 2, .finite 5, 5, 1, .finite 5⟩ : ComparisonRow).time_b) ∧
      (⟨64, 10, 2, .finite 5, 5, 1, .finite 5⟩ : ComparisonRow).memory_ratio
        = .finite ((⟨64, 10, 2, .finite 5, 5, 1, .finite 5⟩ : ComparisonRow).memory_a
            / (⟨64, 10, 2, .finite 5, 5, 1, .finite 5⟩ : ComparisonRow).memory_b) :=
  C2_ratio_formulas "Iterative" [⟨"Iterative", 64, 10, 5⟩] [⟨"Iterative", 64, 2, 1⟩]
    ⟨64, 10, 2, .finite 5, 5, 1, .finite 5⟩
    (by norm_num [reconcile, comparisonRows, mergeOnSize, filterAlg, fdiv])
    (by norm_num) (by norm_num)

/-- C6: a matched pair with a zero denominator does not make the ratio
computation fail — `fdiv` is total — and the resulting value is one of
the IEEE sentinels (signed infinity or NaN), exactly as pandas produces
for columnwise division by zero. -/
theorem C6_zero_denominator_sentinel (alg : String) (julia_df rust_df : List BenchRec)
    (r : ComparisonRow) (hr : r ∈ reconcile alg julia_df rust_df) :
    (r.time_b = 0 →
      r.speedup = .posInf ∨ r.speedup = .negInf ∨ r.speedup = .nan) ∧
    (r.memory_b = 0 →
      r.memory_ratio = .posInf ∨ r.memory_ratio = .negInf ∨ r.memory_ratio = .nan) := by
  obtain ⟨l, _, x, _, _, hrow⟩ := mem_comparisonRows.mp hr
  subst hrow
  constructor
  · intro h0
    have : x.time_ms = 0 := h0
    simpa [mkRow, this] using fdiv_zero_sentinel l.time_ms
  · intro h0
    have : x.memory_mb = 0 := h0
    simpa [mkRow, this] using fdiv_zero_sentinel l.memory_mb

/-- Witness for C6: a Rust row measuring 0 ms and 0 MB. -/
theorem C6_zero_denominator_sentinel_witness :
    ((⟨64, 10, 0, .posInf, 5, 0, .posInf⟩ : ComparisonRow).speedup = .posInf ∨
      (⟨64, 10, 0, .posInf, 5, 0, .posInf⟩ : ComparisonRow).speedup = .negInf ∨
      (⟨64, 10, 0, .posInf, 5, 0, .posInf⟩ : ComparisonRow).speedup = .nan) ∧
    ((⟨64, 10, 0, .posInf, 5, 0, .posInf⟩ : ComparisonRow).memory_ratio = .posInf ∨
      (⟨64, 10, 0, .posInf, 5, 0, .posInf⟩ : ComparisonRow).memory_ratio = .negInf ∨
      (⟨64, 10, 0, .posInf, 5, 0, .posInf⟩ : ComparisonRow).memory_ratio = .nan) := by
  have h := C6_zero_denominator_sentinel "Iterative"
    [⟨"Iterative", 64, 10, 5⟩] [⟨"Iterative", 64, 0, 0⟩]
    ⟨64, 10, 0, .posInf, 5, 0, .posInf⟩
    (by norm_num [reconcile, comparisonRows, mergeOnSize, filterAlg, fdiv])
  exact ⟨h.1 (by norm_num), h.2 (by norm_num)⟩

/-! ### Self-comparison -/

lemma filter_size_eq_singleton (F : List BenchRec)
    (h : (F.map (fun r => r.size)).Nodup) {l : BenchRec} (hl : l ∈ F) :
    F.filter (fun r => r.size == l.size) = [l] := by
  induction F with
  | nil => cases hl
  | cons x xs ih =>
    simp only [List.map_cons, List.nodup_cons, List.mem_map] at h
    obtain ⟨hx, hxs⟩ := h
    rcases List.mem_cons.mp hl with rfl | hl'
    · have hnil : xs.filter (fun r => r.size == l.size) = [] := by
        rw [List.filter_eq_nil_iff]
        intro a ha
        simp only [beq_iff_eq]
        exact fun heq => hx ⟨a, ha, heq⟩
      simp [List.filter_cons, hnil]
    · have hne : (x.size == l.size) = false := by
        simp only [beq_eq_false_iff_ne, ne_eq]
        exact fun heq => hx ⟨l, hl', heq.symm⟩
      rw [List.filter_cons_of_neg (by simp [hne]), ih hxs hl']

lemma flatMap_matched_pairs (F : List BenchRec) :
    ∀ L : List BenchRec, (∀ l ∈ L, F.filter (fun r => r.size == l.size) = [l]) →
      L.flatMap (fun l => (F.filter (fun r => r.size == l.size)).map (fun r => (l, r)))
        = L.map (fun l => (l, l)) := by
  intro L
  induction L with
  | nil => intro _; rfl
  | cons x xs ih =>
    intro hall
    simp only [List.flatMap_cons, List.map_cons]
    rw [hall x (List.mem_cons_self x xs),
      ih (fun l hl => hall l (List.mem_cons_of_mem _ hl))]
    rfl

/-- Joining a frame of pairwise-distinct sizes with itself matches each
record exactly with itself. -/
lemma mergeOnSize_self (F : List BenchRec) (h : (F.map (fun r => r.size)).Nodup) :
    mergeOnSize F F = F.map (fun l => (l, l)) :=
  flatMap_matched_pairs F F (fun _ hl => filter_size_eq_singleton F h hl)

/-- C10: reconciling a dataset with itself, when its per-algorithm
subset has pairwise-distinct sizes and strictly positive measurements,
yields one row per filtered record, each with `speedup = 1` and
`memory_ratio = 1`. -/
theorem C10_self_comparison_identity (X : List BenchRec) (alg : String)
    (hnd : ((filterAlg X alg).map (fun r => r.size)).Nodup)
    (hpos : ∀ rec ∈ filterAlg X alg, 0 < rec.time_ms ∧ 0 < rec.memory_mb) :
    (reconcile alg X X).length = (filterAlg X alg).length ∧
      ∀ r ∈ reconcile alg X X,
        r.speedup = .finite 1 ∧ r.memory_ratio = .finite 1 := by
  have hm := mergeOnSize_self (filterAlg X alg) hnd
  constructor
  · simp [reconcile, comparisonRows_eq_map, hm]
  · intro r hr
    simp only [reconcile, comparisonRows_eq_map, hm, List.map_map, List.mem_map] at hr
    obtain ⟨l, hl, rfl⟩ := hr
    obtain ⟨ht, hmb⟩ := hpos l hl
    exact ⟨fdiv_self_of_pos ht, fdiv_self_of_pos hmb⟩

/-- Witness for C10 on a two-row dataset. -/
theorem C10_self_comparison_identity_witness :
    (reconcile "Iterative" [⟨"Iterative", 64, 10, 5⟩, ⟨"Iterative", 128, 20, 7⟩]
        [⟨"Iterative", 64, 10, 5⟩, ⟨"Iterative", 128, 20, 7⟩]).length
      = (filterAlg [⟨"Iterative", 64, 10, 5⟩, ⟨"Iterative", 128, 20, 7⟩] "Iterative").length ∧
    ∀ r ∈ reconcile "Iterative" [⟨"Iterative", 64, 10, 5⟩, ⟨"Iterative", 128, 20, 7⟩]
        [⟨"Iterative", 64, 10, 5⟩, ⟨"Iterative", 128, 20, 7⟩],
      r.speedup = .finite 1 ∧ r.memory_ratio = .finite 1 :=
  C10_self_comparison_identity [⟨"Iterative", 64, 10, 5⟩, ⟨"Iterative", 128, 20, 7⟩]
    "Iterative" (by decide)
    (by
      intro rec hrec
      simp only [filterAlg, List.filter_cons, List.filter_nil] at hrec
      norm_num at hrec
      rcases hrec with rfl | rfl <;> norm_num)

/-! ### Row count of the inner join -/

lemma length_filter_size (G : List BenchRec) (h : (G.map (fun r => r.size)).Nodup)
    (s : Nat) :
    (G.filter (fun r => r.size == s)).length
      = if s ∈ G.map (fun r => r.size) then 1 else 0 := by
  induction G with
  | nil => simp
  | cons x xs ih =>
    simp only [List.map_cons, List.nodup_cons, List.mem_map] at h
    obtain ⟨hx, hxs⟩ := h
    by_cases hxe : x.size = s
    · rw [List.filter_cons_of_pos (by simp [hxe])]
      have hnot : s ∉ xs.map (fun r => r.size) := by
        simp only [List.mem_map]
        exact fun ⟨a, ha, hb⟩ => hx ⟨a, ha, hb.trans hxe.symm⟩
      simp [ih hxs, hnot, hxe]
    · rw [List.filter_cons_of_neg (by simp [hxe])]
      have hmem : (s ∈ (x :: xs).map (fun r => r.size))
          ↔ (s ∈ xs.map (fun r => r.size)) := by
        simp only [List.map_cons, List.mem_cons]
        exact or_iff_right (fun heq => hxe heq.symm)
      rw [ih hxs, if_congr hmem rfl rfl]

lemma length_mergeOnSize (F G : List BenchRec)
    (hG : (G.map (fun r => r.size)).Nodup) :
    (mergeOnSize F G).length
      = ((F.map (fun r => r.size)).filter
          (fun s => s ∈ G.map (fun r => r.size))).length := by
  induction F with
  | nil => rfl
  | cons x xs ih =>
    simp only [mergeOnSize, List.flatMap_cons, List.length_append, List.length_map,
      List.map_cons, List.filter_cons] at ih ⊢
    rw [length_filter_size G hG x.size]
    by_cases hx : x.size ∈ G.map (fun r => r.size)
    · simp [hx, ih, Nat.add_comm]
    · simp [hx, ih]

lemma length_filter_mem_eq_card_inter (A B : List Nat) (hA : A.Nodup) :
    (A.filter (fun s => s ∈ B)).length = (A.toFinset ∩ B.toFinset).card := by
  have h1 : (A.filter (fun s => s ∈ B)).Nodup := hA.filter _
  rw [← List.toFinset_card_of_nodup h1, List.toFinset_filter]
  congr 1
  rw [← Finset.filter_mem_eq_inter]
  apply Finset.filter_congr
  intro s _
  simp

/-- C1 (amended): when the two per-algorithm filtered subsets have
pairwise-distinct sizes, the reconciliation produces exactly as many
rows as there are sizes common to both subsets, one per common size and
none for a one-sided size.  (Without the distinctness hypothesis the
pandas inner merge multiplies duplicate keys; see the
counterexample.) -/
theorem C1_join_row_count (alg : String) (X Y : List BenchRec)
    (hX : ((filterAlg X alg).map (fun r => r.size)).Nodup)
    (hY : ((filterAlg Y alg).map (fun r => r.size)).Nodup) :
    (reconcile alg X Y).length
        = (((filterAlg X alg).map (fun r => r.size)).toFinset ∩
            ((filterAlg Y alg).map (fun r => r.size)).toFinset).card ∧
      ∀ s : Nat, (∃ r ∈ reconcile alg X Y, r.size = s) ↔
        (s ∈ (filterAlg X alg).map (fun r => r.size) ∧
          s ∈ (filterAlg Y alg).map (fun r => r.size)) := by
  constructor
  · have h1 : (reconcile alg X Y).length
        = (mergeOnSize (filterAlg X alg) (filterAlg Y alg)).length := by
      simp [reconcile, comparisonRows_eq_map]
    rw [h1, length_mergeOnSize _ _ hY, length_filter_mem_eq_card_inter _ _ hX]
  · intro s
    constructor
    · rintro ⟨r, hr, rfl⟩
      obtain ⟨l, hl, x, hx, hsz, rfl⟩ := mem_comparisonRows.mp hr
      refine ⟨List.mem_map.mpr ⟨l, hl, rfl⟩, List.mem_map.mpr ⟨x, hx, ?_⟩⟩
      simpa [mkRow] using hsz
    · rintro ⟨hsX, hsY⟩
      obtain ⟨l, hl, hls⟩ := List.mem_map.mp hsX
      obtain ⟨x, hx, hxs⟩ := List.mem_map.mp hsY
      exact ⟨mkRow l x, mem_comparisonRows.mpr ⟨l, hl, x, hx, hxs.trans hls.symm, rfl⟩, hls⟩

/-- C1 counterexample: with a duplicated size 64 on the Julia side the
merge produces two rows, while the size sets intersect in one element —
the claimed equality fails as stated for arbitrary datasets. -/
theorem C1_join_row_count_counterexample :
    ¬ ((reconcile "Iterative"
          [⟨"Iterative", 64, 10, 5⟩, ⟨"Iterative", 64, 11, 6⟩]
          [⟨"Iterative", 64, 2, 1⟩]).length
        = (((filterAlg [⟨"Iterative", 64, 10, 5⟩, ⟨"Iterative", 64, 11, 6⟩]
              "Iterative").map (fun r => r.size)).toFinset ∩
            ((filterAlg [⟨"Iterative", 64, 2, 1⟩] "Iterative").map
              (fun r => r.size)).toFinset).card) := by
  decide

/-- Witness for C1 on the spec's end-to-end example. -/
theorem C1_join_row_count_witness :
    (reconcile "Iterative" [⟨"Iterative", 64, 10, 5⟩] [⟨"Iterative", 64, 2, 1⟩]).length
        = (((filterAlg [⟨"Iterative", 64, 10, 5⟩] "Iterative").map
              (fun r => r.size)).toFinset ∩
            ((filterAlg [⟨"Iterative", 64, 2, 1⟩] "Iterative").map
              (fun r => r.size)).toFinset).card ∧
      ∀ s : Nat,
        (∃ r ∈ reconcile "Iterative" [⟨"Iterative", 64, 10, 5⟩]
            [⟨"Iterative", 64, 2, 1⟩], r.size = s) ↔
          (s ∈ (filterAlg [⟨"Iterative", 64, 10, 5⟩] "Iterative").map
              (fun r => r.size) ∧
            s ∈ (filterAlg [⟨"Iterative", 64, 2, 1⟩] "Iterative").map
              (fun r => r.size)) :=
  C1_join_row_count "Iterative" [⟨"Iterative", 64, 10, 5⟩] [⟨"Iterative", 64, 2, 1⟩]
    (by decide) (by decide)

/-! ### Artifact slugs -/

lemma toLower_ne_dash {c : Char} (hc : c ≠ '-') : Char.toLower c ≠ '-' := by
  simp only [Char.toLower]
  split
  · next hcond =>
    obtain ⟨h1, h2⟩ := hcond
    intro heq
    generalize c.toNat = n at h1 h2 heq
    interval_cases n <;> exact absurd heq (by decide)
  · next hcond => exact hc

/-- C7 (amended): the code's slug lower-cases and replaces hyphens by
underscores but leaves spaces untouched; on algorithm names with no
space — all names in the script's fixed set — it coincides with the
spec's rule, and "Divide-Conquer" yields `divide_conquer_table.png`. -/
theorem C7_slug_normalization (alg : String) (h : ' ' ∉ alg.data) :
    algorithmSlug alg = specSlug alg ∧
      algorithmSlug "Divide-Conquer" ++ "_table.png" = "divide_conquer_table.png" := by
  refine ⟨?_, by decide⟩
  unfold algorithmSlug pyReplaceDash pyLower specSlug
  refine congrArg String.mk ?_
  rw [show (String.mk (alg.data.map Char.toLower)).data
      = alg.data.map Char.toLower from rfl, List.map_map]
  apply List.map_congr_left
  intro c hc
  have hcs : c ≠ ' ' := fun he => h (he ▸ hc)
  by_cases hd : c = '-'
  · subst hd; decide
  · have hld := toLower_ne_dash hd
    simp [Function.comp, beq_iff_eq, hd, hcs, hld]

/-- Witness for C7 at the fixed algorithm name "Divide-Conquer". -/
theorem C7_slug_normalization_witness :
    algorithmSlug "Divide-Conquer" = specSlug "Divide-Conquer" ∧
      algorithmSlug "Divide-Conquer" ++ "_table.png" = "divide_conquer_table.png" :=
  C7_slug_normalization "Divide-Conquer" (by decide)

/-- C7 counterexample: the claimed rule also replaces spaces, but the
code (`lower().replace("-", "_")`) does not — on the name "A B" the
code's slug is "a b", not the claimed "a_b". -/
theorem C7_slug_counterexample : algorithmSlug "A B" ≠ specSlug "A B" := by decide

/-! ### Ingestion failures -/

/-- C4: with no file matching either glob the run exits with status 1
having written nothing; with at least one file on each side the
missing-input failure path is not taken. -/
theorem C4_missing_input_fatal (julia_files rust_files : List CSVFile) :
    ((julia_files = [] ∨ rust_files = []) →
        main julia_files rust_files = .fail 1 []) ∧
      (julia_files ≠ [] → rust_files ≠ [] →
        load_benchmark_data julia_files rust_files ≠ .error .missingInput) := by
  constructor
  · rintro (rfl | rfl)
    · rfl
    · cases julia_files with
      | nil => rfl
      | cons a l => rfl
  · intro hj hr
    obtain ⟨jf, jtl, rfl⟩ := List.exists_cons_of_ne_nil hj
    obtain ⟨rf, rtl, rfl⟩ := List.exists_cons_of_ne_nil hr
    unfold load_benchmark_data
    cases hj' : readCSV jf <;> cases hr' : readCSV rf <;> simp [hj', hr']

/-- Witness for C4: empty directory on both sides, and a one-file-per-side
layout that avoids the failure path. -/
theorem C4_missing_input_fatal_witness :
    main [] [] = .fail 1 [] ∧
      load_benchmark_data [⟨"julia_benchmark_a.csv", []⟩] [⟨"rust_benchmark_a.csv", []⟩]
        ≠ .error .missingInput :=
  ⟨(C4_missing_input_fatal [] []).1 (Or.inl rfl),
    (C4_missing_input_fatal [⟨"julia_benchmark_a.csv", []⟩]
      [⟨"rust_benchmark_a.csv", []⟩]).2 (by decide) (by decide)⟩

lemma parseRows_eq_none {l : List RawRow} {row : RawRow} (hmem : row ∈ l)
    (hrow : parseRow row = none) : parseRows l = none := by
  induction l with
  | nil => cases hmem
  | cons x xs ih =>
    rcases List.mem_cons.mp hmem with rfl | hmem'
    · simp [parseRows, hrow]
    · cases hx : parseRow x <;> simp [parseRows, hx, ih hmem']

/-- C5: a non-numeric `size`/`time_ms`/`memory_mb` field in either
selected file makes the load fail, the run abort with nonzero status,
and no artifact is written. -/
theorem C5_malformed_row_aborts (jf rf : CSVFile) (jtl rtl : List CSVFile)
    (hbad : (∃ row ∈ jf.rows, parseRow row = none) ∨
      (∃ row ∈ rf.rows, parseRow row = none)) :
    main (jf :: jtl) (rf :: rtl) = .fail 1 [] := by
  rcases hbad with ⟨row, hmem, hrow⟩ | ⟨row, hmem, hrow⟩
  · have hnone : readCSV jf = none := parseRows_eq_none hmem hrow
    simp [main, load_benchmark_data, hnone]
  · have hnone : readCSV rf = none := parseRows_eq_none hmem hrow
    cases hjf : readCSV jf <;> simp [main, load_benchmark_data, hjf, hnone]

/-- Witness for C5: a Julia file whose `size` cell is the text "abc". -/
theorem C5_malformed_row_aborts_witness :
    main [⟨"julia_benchmark_a.csv", [⟨"Iterative", .text "abc", .num 1, .num 2⟩]⟩]
        [⟨"rust_benchmark_a.csv", []⟩] = .fail 1 [] :=
  C5_malformed_row_aborts _ _ [] []
    (Or.inl ⟨⟨"Iterative", .text "abc", .num 1, .num 2⟩, by decide, by decide⟩)

/-! ### Which tables are rendered, and in which order -/

/-- C8: the comparison table of an algorithm of the fixed set is
rendered exactly when both per-algorithm filtered frames are non-empty;
otherwise the algorithm is skipped and the loop continues. -/
theorem C8_table_iff_both_nonempty (julia_df rust_df : List BenchRec) (alg : String)
    (halg : alg ∈ algorithms) :
    (algorithmSlug alg ++ "_table.png") ∈ create_comparison_tables julia_df rust_df ↔
      (filterAlg julia_df alg ≠ [] ∧ filterAlg rust_df alg ≠ []) := by
  simp only [create_comparison_tables, List.mem_filterMap]
  constructor
  · rintro ⟨a, ha, heq⟩
    split at heq
    · next hcond =>
      have hname : algorithmSlug a ++ "_table.png"
          = algorithmSlug alg ++ "_table.png" := by simpa using heq
      have haa : a = alg := by
        fin_cases ha <;> fin_cases halg <;>
          first
            | rfl
            | (exfalso; revert hname; decide)
      subst haa
      exact ⟨List.length_pos.mp hcond.1, List.length_pos.mp hcond.2⟩
    · exact absurd heq (by simp)
  · rintro ⟨h1, h2⟩
    refine ⟨alg, halg, ?_⟩
    rw [if_pos ⟨List.length_pos.mpr h1, List.length_pos.mpr h2⟩]

/-- Witness for C8: non-empty Iterative data on both sides. -/
theorem C8_table_iff_both_nonempty_witness :
    (algorithmSlug "Iterative" ++ "_table.png")
        ∈ create_comparison_tables [⟨"Iterative", 64, 10, 5⟩] [⟨"Iterative", 64, 2, 1⟩] ↔
      (filterAlg [⟨"Iterative", 64, 10, 5⟩] "Iterative" ≠ [] ∧
        filterAlg [⟨"Iterative", 64, 2, 1⟩] "Iterative" ≠ []) :=
  C8_table_iff_both_nonempty [⟨"Iterative", 64, 10, 5⟩] [⟨"Iterative", 64, 2, 1⟩]
    "Iterative" (by decide)

lemma filterMap_guard_sublist {α β : Type _} (l : List α) (g : α → Option β)
    (f : α → β) (hg : ∀ a, g a = none ∨ g a = some (f a)) :
    (l.filterMap g).Sublist (l.map f) := by
  induction l with
  | nil => simp
  | cons x xs ih =>
    rcases hg x with hx | hx <;> simp only [List.filterMap_cons, hx, List.map_cons]
    · exact ih.cons _
    · exact ih.cons₂ _

lemma create_comparison_tables_sublist (julia_df rust_df : List BenchRec) :
    (create_comparison_tables julia_df rust_df).Sublist
      (algorithms.map (fun a => algorithmSlug a ++ "_table.png")) := by
  apply filterMap_guard_sublist
  intro a
  by_cases hc : (0 < (filterAlg julia_df a).length ∧ 0 < (filterAlg rust_df a).length)
  · right; simp [hc]
  · left; simp [hc]

/-- C9: a successful run writes, in order, the time then memory plot of
each algorithm of the fixed ordered set, the combined time overlay, the
combined memory overlay, and only then the comparison tables, which
follow the same algorithm order (skips allowed); no table precedes a
plot. -/
theorem C9_artifact_order (julia_files rust_files : List CSVFile) (arts : List String)
    (h : main julia_files rust_files = .ok arts) :
    ∃ tables : List String,
      arts = ["iterative_comparison.png", "iterative_memory.png",
              "divide_conquer_comparison.png", "divide_conquer_memory.png",
              "strassen_comparison.png", "strassen_memory.png",
              "all_algorithms_comparison.png", "all_algorithms_memory.png"] ++ tables ∧
        tables.Sublist (algorithms.map (fun a => algorithmSlug a ++ "_table.png")) := by
  unfold main at h
  cases hload : load_benchmark_data julia_files rust_files with
  | error e => rw [hload] at h; cases h
  | ok t =>
    obtain ⟨j, r, jf, rf⟩ := t
    rw [hload] at h
    simp only [RunResult.ok.injEq] at h
    refine ⟨create_comparison_tables j r, ?_, create_comparison_tables_sublist j r⟩
    rw [← h]
    rfl

/-- Witness for C9: a successful one-row-per-side run. -/
theorem C9_artifact_order_witness :
    ∃ tables : List String,
      ["iterative_comparison.png", "iterative_memory.png",
       "divide_conquer_comparison.png", "divide_conquer_memory.png",
       "strassen_comparison.png", "strassen_memory.png",
       "all_algorithms_comparison.png", "all_algorithms_memory.png",
       "iterative_table.png"]
        = ["iterative_comparison.png", "iterative_memory.png",
           "divide_conquer_comparison.png", "divide_conquer_memory.png",
           "strassen_comparison.png", "strassen_memory.png",
           "all_algorithms_comparison.png", "all_algorithms_memory.png"] ++ tables ∧
        tables.Sublist (algorithms.map (fun a => algorithmSlug a ++ "_table.png")) :=
  C9_artifact_order
    [⟨"julia_benchmark_4t_a.csv", [⟨"Iterative", .num 64, .num 10, .num 5⟩]⟩]
    [⟨"rust_benchmark_4t_a.csv", [⟨"Iterative", .num 64, .num 2, .num 1⟩]⟩]
    _ (by decide)

/-! ### Correctness of the thread-count scan -/

/-- Modelled from the spec's words: the filename has, at position `i`,
an occurrence of a substring matching `_<digits>t_` whose digit group
is `d`. -/
def threadPatternAt (s : List Char) (i : Nat) (d : List Char) : Prop :=
  d ≠ [] ∧ (∀ c ∈ d, c.isDigit = true) ∧
    ∃ suf, s.drop i = '_' :: (d ++ 't' :: '_' :: suf)

lemma takeWhile_dropWhile_append (p : Char → Bool) (d : List Char) (c : Char)
    (t : List Char) (hd : ∀ x ∈ d, p x = true) (hc : p c = false) :
    (d ++ c :: t).takeWhile p = d ∧ (d ++ c :: t).dropWhile p = c :: t := by
  induction d with
  | nil => simp [List.takeWhile_cons, List.dropWhile_cons, hc]
  | cons x xs ih =>
    have hx : p x = true := hd x (by simp)
    have hxs := ih (fun y hy => hd y (by simp [hy]))
    simp [List.takeWhile_cons, List.dropWhile_cons, hx, hxs.1, hxs.2]

lemma tcMatchAt_eq_some_iff (s d : List Char) :
    tcMatchAt s = some d ↔
      (d ≠ [] ∧ (∀ c ∈ d, c.isDigit = true) ∧
        ∃ suf, s = '_' :: (d ++ 't' :: '_' :: suf)) := by
  constructor
  · intro h
    cases s with
    | nil => simp [tcMatchAt] at h
    | cons c rest =>
      by_cases hc : c = '_'
      · subst hc
        by_cases h0 : rest.takeWhile Char.isDigit = []
        · simp [tcMatchAt, h0] at h
        · cases hdrop : rest.dropWhile Char.isDigit with
          | nil => simp [tcMatchAt, h0, hdrop] at h
          | cons c1 tl1 =>
            cases tl1 with
            | nil => simp [tcMatchAt, h0, hdrop] at h
            | cons c2 tl2 =>
              by_cases h12 : c1 = 't' ∧ c2 = '_'
              · obtain ⟨rfl, rfl⟩ := h12
                simp only [tcMatchAt, if_pos rfl, if_neg h0, hdrop, and_self,
                  if_true, Option.some.injEq] at h
                refine ⟨?_, ?_, tl2, ?_⟩
                · rw [← h]; exact h0
                · intro x hx
                  rw [← h] at hx
                  exact List.mem_takeWhile_imp hx
                · congr 1
                  rw [← h]
                  have hsplit := List.takeWhile_append_dropWhile Char.isDigit rest
                  rw [hdrop] at hsplit
                  exact hsplit.symm
              · simp [tcMatchAt, h0, hdrop, h12] at h
      · simp [tcMatchAt, hc] at h
  · rintro ⟨hne, hdig, suf, rfl⟩
    have h1 := takeWhile_dropWhile_append Char.isDigit d 't' ('_' :: suf) hdig (by decide)
    simp [tcMatchAt, h1.1, h1.2, hne]

lemma threadPatternAt_iff (s : List Char) (i : Nat) (d : List Char) :
    threadPatternAt s i d ↔ tcMatchAt (s.drop i) = some d :=
  (tcMatchAt_eq_some_iff (s.drop i) d).symm

lemma reSearchTC_eq_none_iff (s : List Char) :
    reSearchTC s = none ↔ ∀ i d, ¬ threadPatternAt s i d := by
  induction s with
  | nil =>
    constructor
    · intro _ i d hm
      obtain ⟨_, _, suf, hdrop⟩ := hm
      simp at hdrop
    · intro _; rfl
  | cons c rest ih =>
    constructor
    · intro h i d hm
      cases htc : tcMatchAt (c :: rest) with
      | some d0 =>
        simp only [reSearchTC, htc] at h
        exact Option.noConfusion h
      | none =>
        simp only [reSearchTC, htc] at h
        cases i with
        | zero =>
          have := (threadPatternAt_iff (c :: rest) 0 d).mp hm
          simp [htc] at this
        | succ i' => exact (ih.mp h) i' d hm
    · intro h
      cases htc : tcMatchAt (c :: rest) with
      | some d0 =>
        exact absurd ((threadPatternAt_iff (c :: rest) 0 d0).mpr (by simpa using htc))
          (h 0 d0)
      | none =>
        simp only [reSearchTC, htc]
        exact ih.mpr (fun i d hm => h (i + 1) d hm)

lemma reSearchTC_eq_some_of_first (s : List Char) (i : Nat) (d : List Char)
    (hm : threadPatternAt s i d) (hmin : ∀ j e, threadPatternAt s j e → i ≤ j) :
    reSearchTC s = some d := by
  induction s generalizing i with
  | nil =>
    obtain ⟨_, _, suf, hdrop⟩ := hm
    simp at hdrop
  | cons c rest ih =>
    cases htc : tcMatchAt (c :: rest) with
    | some d0 =>
      have h0 : threadPatternAt (c :: rest) 0 d0 :=
        (threadPatternAt_iff _ 0 d0).mpr (by simpa using htc)
      have hi0 : i = 0 := Nat.le_zero.mp (hmin 0 d0 h0)
      subst hi0
      have hd : tcMatchAt (c :: rest) = some d := by
        have := (threadPatternAt_iff (c :: rest) 0 d).mp hm
        simpa using this
      simp only [reSearchTC, htc]
      rw [htc] at hd
      exact hd
    | none =>
      cases i with
      | zero =>
        exfalso
        have := (threadPatternAt_iff (c :: rest) 0 d).mp hm
        simp [htc] at this
      | succ i' =>
        simp only [reSearchTC, htc]
        exact ih i' hm (fun j e hj => Nat.succ_le_succ_iff.mp (hmin (j + 1) e hj))

/-- C3: thread-count extraction returns the digit group of the leftmost
`_<digits>t_` occurrence when one exists and the sentinel "unknown"
otherwise; in particular on the two file names of the spec's examples. -/
theorem C3_thread_count_extraction (s : String) :
    (∀ i d, threadPatternAt s.data i d →
        (∀ j e, threadPatternAt s.data j e → i ≤ j) →
        extract_thread_count s = String.mk d) ∧
      ((∀ i d, ¬ threadPatternAt s.data i d) → extract_thread_count s = "unknown") ∧
      extract_thread_count "rust_benchmark_8t_20240101.csv" = "8" ∧
      extract_thread_count "rust_benchmark_20240101.csv" = "unknown" := by
  refine ⟨?_, ?_, by decide, by decide⟩
  · intro i d hm hmin
    unfold extract_thread_count
    rw [reSearchTC_eq_some_of_first s.data i d hm hmin]
  · intro h
    unfold extract_thread_count
    rw [(reSearchTC_eq_none_iff s.data).mpr h]

/-- Witness for C3 at the file name "_3t_b", whose leftmost (only)
pattern occurrence sits at position 0 with digit group "3". -/
theorem C3_thread_count_extraction_witness :
    extract_thread_count "_3t_b" = String.mk ['3'] :=
  (C3_thread_count_extraction "_3t_b").1 0 ['3']
    ⟨by decide, by decide, ['b'], by decide⟩
    (fun j _ _ => Nat.zero_le j)

end MatmulBench
